import Mathlib

/-!
Shallow embedding of `tools/dem_manager.py` (hdrpano/GeoTIFF-Python).

Machine floats of the source are modelled as exact rationals `ℚ`; the external
collaborators (GDAL raster decoding, OSR coordinate reprojection, directory
listing) are modelled as an explicit environment record of pure functions
returning `Option` where the collaborator may fail.  Python exceptions that
escape a function are modelled with `Except Err`.
-/

namespace DEM

/-- Exceptions that can escape the core operations. -/
inductive Err where
  /-- `RuntimeError` raised by `DEMTile.__init__` when `gdal.Open` fails. -/
  | openError
  /-- a failing `TransformPoint` call of the reprojection collaborator. -/
  | reprojError
  /-- `ValueError` raised by `float(...)` on the resolution capture. -/
  | floatError
  /-- `ValueError` raised by `min(...)`/`max(...)` on an empty list. -/
  | emptyMin
  /-- `IndexError` raised by `entries[0]` on an empty list. -/
  | indexError
deriving DecidableEq, Repr

/-! ## File-name classification (`_parse_swisstopo_name`, `_parse_aster_name`)

The two regexes of the source are implemented as deterministic matchers.
This is exact: in both patterns every quantified character class is followed
by a delimiter outside that class, so the greedy munch admits no backtracking,
and the single non-greedy `.*?_` prefix of the swisstopo pattern is resolved
by trying the split points left to right. -/

/-- Match a literal list of characters at the front, returning the remainder. -/
def matchLit : List Char → List Char → Option (List Char)
  | [], cs => some cs
  | _ :: _, [] => none
  | l :: ls, c :: cs => if c = l then matchLit ls cs else none

/-- `\d+`: take a nonempty run of digits, returning it and the remainder. -/
def expectDigits (cs : List Char) : Option (List Char × List Char) :=
  let d := cs.takeWhile Char.isDigit
  if d.isEmpty then none else some (d, cs.dropWhile Char.isDigit)

/-- `[\d\.]+`: take a nonempty run of digits and dots. -/
def expectResField (cs : List Char) : Option (List Char × List Char) :=
  let d := cs.takeWhile (fun c => c.isDigit || c == '.')
  if d.isEmpty then none else
    some (d, cs.dropWhile (fun c => c.isDigit || c == '.'))

/-- A single literal character. -/
def expectChar (c : Char) : List Char → Option (List Char)
  | [] => none
  | x :: xs => if x = c then some xs else none

/-- The anchored tail `(\d+)-(\d+)_([\d\.]+)_\d+_\d+\.tif$` of the swisstopo
pattern, matched against the characters after a candidate `.*?_` split.
Returns the three captures (grid x digits, grid y digits, resolution field). -/
def swissTail (cs : List Char) : Option (List Char × List Char × List Char) :=
  match expectDigits cs with
  | none => none
  | some (d1, r1) =>
    match expectChar '-' r1 with
    | none => none
    | some r2 =>
      match expectDigits r2 with
      | none => none
      | some (d2, r3) =>
        match expectChar '_' r3 with
        | none => none
        | some r4 =>
          match expectResField r4 with
          | none => none
          | some (res, r5) =>
            match expectChar '_' r5 with
            | none => none
            | some r6 =>
              match expectDigits r6 with
              | none => none
              | some (_, r7) =>
                match expectChar '_' r7 with
                | none => none
                | some r8 =>
                  match expectDigits r8 with
                  | none => none
                  | some (_, r9) =>
                    if r9 = ['.', 't', 'i', 'f'] then some (d1, d2, res)
                    else none

/-- Resolution of the non-greedy prefix `.*?_` of
`.*?_(\d+)-(\d+)_([\d\.]+)_\d+_\d+\.tif$`: try each `_` split point left to
right (`.` of the regex does not cross a newline). -/
def swissScan : List Char → Option (List Char × List Char × List Char)
  | [] => none
  | c :: cs =>
    if c = '\n' then none
    else if c = '_' then
      match swissTail cs with
      | some r => some r
      | none => swissScan cs
    else swissScan cs

/-- Decimal digits to a natural number, as Python `int` on a digit string. -/
def digitsToNat (cs : List Char) : ℕ :=
  cs.foldl (fun n c => 10 * n + (c.toNat - 48)) 0

/-- Python `float` applied to a string drawn from the class `[\d\.]+`:
defined exactly when the string has at most one dot and at least one digit. -/
def parseFloat (cs : List Char) : Option ℚ :=
  if cs.count '.' ≤ 1 ∧ cs.any Char.isDigit = true then
    let ip := cs.takeWhile (· ≠ '.')
    let fp := (cs.dropWhile (· ≠ '.')).drop 1
    some ((digitsToNat ip : ℚ) + (digitsToNat fp : ℚ) / (10 : ℚ) ^ fp.length)
  else none

/-- Classification result for a swisstopo fine-grid file name. -/
structure SwissInfo where
  ix : ℕ
  iy : ℕ
  res : ℚ
deriving DecidableEq, Repr

/-- Classification result for an ASTER coarse-grid file name; the footprint
is fixed by the name (`[lat, lat+1] × [lon, lon+1]`, 30 m resolution). -/
structure AsterInfo where
  minlat : ℚ
  maxlat : ℚ
  minlon : ℚ
  maxlon : ℚ
  res : ℚ
deriving DecidableEq, Repr

/-- `DEMManager._parse_swisstopo_name`.  `.error ()` models the `ValueError`
that `float(m.group(3))` raises when the capture is not a valid decimal. -/
def parseSwiss (name : String) : Except Unit (Option SwissInfo) :=
  match swissScan name.toList with
  | none => .ok none
  | some (d1, d2, res) =>
    match parseFloat res with
    | none => .error ()
    | some r => .ok (some ⟨digitsToNat d1, digitsToNat d2, r⟩)

/-- `DEMManager._parse_aster_name`: `ASTGTMV\d+_N(\d+)E(\d+)_dem\.tif$`. -/
def parseAster (name : String) : Option AsterInfo :=
  match matchLit "ASTGTMV".toList name.toList with
  | none => none
  | some r1 =>
    match expectDigits r1 with
    | none => none
    | some (_, r2) =>
      match expectChar '_' r2 with
      | none => none
      | some r2b =>
        match expectChar 'N' r2b with
        | none => none
        | some r3 =>
          match expectDigits r3 with
          | none => none
          | some (d1, r4) =>
            match expectChar 'E' r4 with
            | none => none
            | some r5 =>
              match expectDigits r5 with
              | none => none
              | some (d2, r6) =>
                if r6 = "_dem.tif".toList then
                  some ⟨(digitsToNat d1 : ℚ), (digitsToNat d1 : ℚ) + 1,
                        (digitsToNat d2 : ℚ), (digitsToNat d2 : ℚ) + 1, 30⟩
                else none

/-- Outcome of classifying one file name, as used by the loading loop. -/
inductive Descriptor where
  | fine (i : SwissInfo)
  | coarse (a : AsterInfo)
  | unrecognized
deriving DecidableEq, Repr

/-- The classifier as the loading loop uses it: swisstopo pattern first
(`continue` on a match), then the ASTER pattern, else unrecognized. -/
def classify (name : String) : Except Unit Descriptor :=
  match parseSwiss name with
  | .error e => .error e
  | .ok (some i) => .ok (.fine i)
  | .ok none =>
    match parseAster name with
    | some a => .ok (.coarse a)
    | none => .ok .unrecognized

/-! ## Raster and reprojection collaborators (§ external interfaces) -/

/-- The six GDAL geotransform coefficients
`(x0, px_w, rot_x, y0, rot_y, px_h)`. -/
structure GeoTransform where
  x0 : ℚ
  pxW : ℚ
  rotX : ℚ
  y0 : ℚ
  rotY : ℚ
  pxH : ℚ

/-- What `gdal.Open` exposes of one raster file: geotransform, pixel sizes,
the EPSG code extracted from the projection (`None` when absent), the band's
nodata value, and single-pixel reads (`band.ReadAsArray(px, py, 1, 1)`). -/
structure RasterHandle where
  gt : GeoTransform
  rx : ℕ
  ry : ℕ
  epsg : Option ℕ
  nodata : Option ℚ
  readPixel : ℕ → ℕ → Option ℚ

/-- The external collaborators: directory listing (`glob("*.tif")` order),
raster opening, and the two reprojection directions keyed by the tile's EPSG
code.  `none` models a collaborator failure. -/
structure Env where
  listFolder : String → List String
  openRaster : String → Option RasterHandle
  toWgs : ℕ → ℚ × ℚ → Option (ℚ × ℚ)
  toDem : ℕ → ℚ → ℚ → Option (ℚ × ℚ)

/-! ## DEMTile -/

/-- The state a constructed `DEMTile` carries: geotransform, raster size,
whether reprojection is needed and the geographic→native transformation
(`self.to_dem`, `None` when not needed), the epsilon-expanded WGS84 bounding
box, the nodata sentinel, and the pixel reader of band 1. -/
structure DEMTile where
  path : String
  gt : GeoTransform
  rx : ℕ
  ry : ℕ
  needTransform : Bool
  toDem : Option (ℚ → ℚ → Option (ℚ × ℚ))
  minlon : ℚ
  maxlon : ℚ
  minlat : ℚ
  maxlat : ℚ
  nodata : Option ℚ
  readPixel : ℕ → ℕ → Option ℚ

/-- Python `min` over a nonempty list given as head and tail. -/
def pyMin (x : ℚ) (xs : List ℚ) : ℚ := xs.foldl min x

/-- Python `max` over a nonempty list given as head and tail. -/
def pyMax (x : ℚ) (xs : List ℚ) : ℚ := xs.foldl max x

/-- `DEMTile.__init__`: open the raster, decide whether reprojection is
needed (`epsg not in (None, 4326)`), compute the four grid corners from the
geotransform (rotation terms unused, as in the source), reproject them to
WGS84 when needed (a failing corner transform raises), and expand the
min/max box by `epsilon_deg = 1e-6` on every side. -/
def mkDEMTile (env : Env) (path : String) : Except Err DEMTile :=
  match env.openRaster path with
  | none => .error .openError
  | some ds =>
    let gt := ds.gt
    let needT : Bool := ds.epsg ≠ none ∧ ds.epsg ≠ some 4326
    let c1 : ℚ × ℚ := (gt.x0, gt.y0)
    let c2 : ℚ × ℚ := (gt.x0 + (ds.rx : ℚ) * gt.pxW, gt.y0)
    let c3 : ℚ × ℚ := (gt.x0, gt.y0 + (ds.ry : ℚ) * gt.pxH)
    let c4 : ℚ × ℚ := (gt.x0 + (ds.rx : ℚ) * gt.pxW, gt.y0 + (ds.ry : ℚ) * gt.pxH)
    let cornersWgs : Option (List (ℚ × ℚ)) :=
      match ds.epsg, needT with
      | some code, true => [c1, c2, c3, c4].mapM (env.toWgs code)
      | _, _ => some [c1, c2, c3, c4]
    match cornersWgs with
    | none => .error .reprojError
    | some cw =>
      let lons := cw.map Prod.fst
      let lats := cw.map Prod.snd
      let eps : ℚ := 1 / 1000000
      .ok { path := path
            gt := gt
            rx := ds.rx
            ry := ds.ry
            needTransform := needT
            toDem := match ds.epsg, needT with
                     | some code, true => some (env.toDem code)
                     | _, _ => none
            minlon := pyMin (lons.headD 0) lons.tail - eps
            maxlon := pyMax (lons.headD 0) lons.tail + eps
            minlat := pyMin (lats.headD 0) lats.tail - eps
            maxlat := pyMax (lats.headD 0) lats.tail + eps
            nodata := ds.nodata
            readPixel := ds.readPixel }

/-- `DEMTile.bbox_contains`. -/
def DEMTile.bbox_contains (t : DEMTile) (lat lon : ℚ) : Bool :=
  t.minlat ≤ lat ∧ lat ≤ t.maxlat ∧ t.minlon ≤ lon ∧ lon ≤ t.maxlon

/-- `int(math.floor(v + 0.5))`: the rounding of fractional pixel coordinates
to the nearest integer pixel, ties rounding up.  (`Rat.floor` is the
executable floor; it agrees with `⌊·⌋`.) -/
def roundHalfUp (v : ℚ) : ℤ := Rat.floor (v + 1 / 2)

/-- First stage of `DEMTile.get_elevation`: the native (x, y) coordinates of
the query point, via `self.to_dem.TransformPoint(lon, lat)` when the tile
needs reprojection (a failing transform raises), else (lon, lat) directly. -/
def DEMTile.nativeXY (t : DEMTile) (lat lon : ℚ) : Except Err (ℚ × ℚ) :=
  if t.needTransform then
    match t.toDem with
    | some f =>
      match f lon lat with
      | some p => .ok p
      | none => .error .reprojError
    | none => .error .reprojError
  else .ok (lon, lat)

/-- `px = int(math.floor((x - gt[0]) / gt[1] + 0.5))`: the rounded pixel
column of a native x coordinate. -/
def pixelX (t : DEMTile) (x : ℚ) : ℤ := roundHalfUp ((x - t.gt.x0) / t.gt.pxW)

/-- `py = int(math.floor((y - gt[3]) / gt[5] + 0.5))`: the rounded pixel
row of a native y coordinate. -/
def pixelY (t : DEMTile) (y : ℚ) : ℤ := roundHalfUp ((y - t.gt.y0) / t.gt.pxH)

/-- Second stage of `DEMTile.get_elevation`: invert the affine transform,
round with `floor(v + 0.5)`, bounds-check against `[0, rx) × [0, ry)`, read
the single pixel, and filter the nodata sentinel.  `none` is "no data". -/
def DEMTile.samplePixel (t : DEMTile) (x y : ℚ) : Option ℚ :=
  let px := pixelX t x
  let py := pixelY t y
  if 0 ≤ px ∧ px < (t.rx : ℤ) ∧ 0 ≤ py ∧ py < (t.ry : ℤ) then
    match t.readPixel px.toNat py.toNat with
    | none => none
    | some z =>
      match t.nodata with
      | some nd => if z = nd then none else some z
      | none => some z
  else none

/-- `DEMTile.get_elevation`: reproject if needed, then sample the pixel. -/
def DEMTile.get_elevation (t : DEMTile) (lat lon : ℚ) : Except Err (Option ℚ) :=
  match t.nativeXY lat lon with
  | .error e => .error e
  | .ok (x, y) => .ok (t.samplePixel x y)

/-! ## DEMManager: tile selection (`load_tiles_for_coords`) -/

/-- The query batch's bounding box. -/
structure Box where
  minlat : ℚ
  maxlat : ℚ
  minlon : ℚ
  maxlon : ℚ

/-- `min(lats), max(lats), min(lons), max(lons)` over the batch; `none`
models the `ValueError` that `min` raises on an empty batch. -/
def queryBox : List (ℚ × ℚ) → Option Box
  | [] => none
  | c :: cs =>
    some { minlat := pyMin c.1 (cs.map Prod.fst)
           maxlat := pyMax c.1 (cs.map Prod.fst)
           minlon := pyMin c.2 (cs.map Prod.snd)
           maxlon := pyMax c.2 (cs.map Prod.snd) }

/-- One swisstopo group: the `(ix, iy)` key and its `(res, path)` entries in
file order, as one binding of the insertion-ordered dict `swiss_groups`. -/
abbrev Group := (ℕ × ℕ) × List (ℚ × String)

/-- `swiss_groups.setdefault(key, []).append((res, path))` on an
insertion-ordered association list. -/
def insertGroup (k : ℕ × ℕ) (v : ℚ × String) : List Group → List Group
  | [] => [(k, [v])]
  | (k2, vs) :: rest =>
    if k2 = k then (k2, vs ++ [v]) :: rest else (k2, vs) :: insertGroup k v rest

/-- The classification loop over the directory listing: each name is parsed
as swisstopo first (appended to its group; a `float` failure raises), else as
ASTER (appended to `aster_tiles`), else skipped. -/
def scanFilesAux : List String → List Group → List (AsterInfo × String) →
    Except Err (List Group × List (AsterInfo × String))
  | [], gs, asters => .ok (gs, asters)
  | name :: rest, gs, asters =>
    match parseSwiss name with
    | .error _ => .error .floatError
    | .ok (some i) => scanFilesAux rest (insertGroup (i.ix, i.iy) (i.res, name) gs) asters
    | .ok none =>
      match parseAster name with
      | some a => scanFilesAux rest gs (asters ++ [(a, name)])
      | none => scanFilesAux rest gs asters

/-- Classify the whole directory listing. -/
def scanFiles (files : List String) :
    Except Err (List Group × List (AsterInfo × String)) :=
  scanFilesAux files [] []

/-- `entries.sort(key=lambda x: x[0])`: stable ascending sort by resolution
(insertion sort, an earlier entry staying before an equal later one). -/
def insertSorted (x : ℚ × String) : List (ℚ × String) → List (ℚ × String)
  | [] => [x]
  | y :: ys => if x.1 ≤ y.1 then x :: y :: ys else y :: insertSorted x ys

/-- Stable sort of a group's entries by resolution. -/
def sortByRes : List (ℚ × String) → List (ℚ × String)
  | [] => []
  | x :: xs => insertSorted x (sortByRes xs)

/-- The bounding-box overlap test of the source
(`not (t.maxlat < minlat or t.minlat > maxlat or ...)`). -/
def overlaps (tminlat tmaxlat tminlon tmaxlon : ℚ) (q : Box) : Bool :=
  ¬(tmaxlat < q.minlat ∨ tminlat > q.maxlat ∨
    tmaxlon < q.minlon ∨ tminlon > q.maxlon)

/-- Overlap test for an ASTER candidate's name-derived footprint. -/
def asterOverlaps (a : AsterInfo) (q : Box) : Bool :=
  overlaps a.minlat a.maxlat a.minlon a.maxlon q

/-- The per-group loop: sort each group's entries, open the finest
(`DEMTile(finest_path)`, an open failure raising out of the loop), and keep
its path when its footprint overlaps the query box.  Returns the chosen
paths and, second, every path at which a `DEMTile` was constructed. -/
def processSwissGroups (env : Env) (q : Box) :
    List Group → Except Err (List String × List String)
  | [] => .ok ([], [])
  | (_, entries) :: rest =>
    match sortByRes entries with
    | [] => .error .indexError
    | e :: _ =>
      match mkDEMTile env e.2 with
      | .error er => .error er
      | .ok t =>
        match processSwissGroups env q rest with
        | .error er => .error er
        | .ok (chosen, opened) =>
          .ok ((if overlaps t.minlat t.maxlat t.minlon t.maxlon q
                then [e.2] else []) ++ chosen,
               e.2 :: opened)

/-- `[DEMTile(p) for p in chosen_paths]`: open every chosen path, the first
failure raising. -/
def openAll (env : Env) : List String → Except Err (List DEMTile)
  | [] => .ok []
  | p :: ps =>
    match mkDEMTile env p with
    | .error e => .error e
    | .ok t =>
      match openAll env ps with
      | .error e => .error e
      | .ok ts => .ok (t :: ts)

/-- The body of `DEMManager.load_tiles_for_coords` over an explicit listing:
batch box, classification, finest-per-group selection with overlap test,
the ASTER fallback exactly when no swisstopo path was chosen, and the final
reopening of every chosen path.  Returns `(tiles, chosen paths, all paths at
which a DEMTile was constructed, in construction order)`. -/
def load_core (env : Env) (files : List String) (coords : List (ℚ × ℚ)) :
    Except Err (List DEMTile × List String × List String) :=
  match queryBox coords with
  | none => .error .emptyMin
  | some q =>
    match scanFiles files with
    | .error e => .error e
    | .ok (groups, asters) =>
      match processSwissGroups env q groups with
      | .error e => .error e
      | .ok (chosen, opened) =>
        let chosenPaths :=
          if chosen.isEmpty then
            (asters.filter (fun ap => asterOverlaps ap.1 q)).map Prod.snd
          else chosen
        match openAll env chosenPaths with
        | .error e => .error e
        | .ok ts => .ok (ts, chosenPaths, opened ++ chosenPaths)

/-- `DEMManager` state: the tile folder (immutable) and the loaded tiles. -/
structure DEMManager where
  dem_folder : String
  tiles : List DEMTile

/-- `DEMManager.load_tiles_for_coords`: list the folder, select, and replace
`self.tiles` wholesale. -/
def DEMManager.load_tiles_for_coords (env : Env) (m : DEMManager)
    (coords : List (ℚ × ℚ)) : Except Err DEMManager :=
  match load_core env (env.listFolder m.dem_folder) coords with
  | .error e => .error e
  | .ok (ts, _, _) => .ok { m with tiles := ts }

/-- The probing loop of `DEMManager.get_elevation` over the tile list:
first containing tile with a real value wins; "no data" continues. -/
def queryTiles : List DEMTile → ℚ → ℚ → Except Err (Option ℚ)
  | [], _, _ => .ok none
  | t :: rest, lat, lon =>
    if t.bbox_contains lat lon then
      match t.get_elevation lat lon with
      | .error e => .error e
      | .ok (some z) => .ok (some z)
      | .ok none => queryTiles rest lat lon
    else queryTiles rest lat lon

/-- `DEMManager.get_elevation`. -/
def DEMManager.get_elevation (m : DEMManager) (lat lon : ℚ) :
    Except Err (Option ℚ) :=
  queryTiles m.tiles lat lon

/-! ## Concrete objects used by witnesses -/

/-- A tile needing no reprojection whose every pixel reads `v`; footprint
`[-1, 11]²`, unit pixels anchored at the origin. -/
def tileVal (v : ℚ) : DEMTile :=
  { path := "val.tif"
    gt := ⟨0, 1, 0, 0, 0, 1⟩
    rx := 10
    ry := 10
    needTransform := false
    toDem := none
    minlon := -1
    maxlon := 11
    minlat := -1
    maxlat := 11
    nodata := none
    readPixel := fun _ _ => some v }

/-- A tile like `tileVal` whose pixel reads yield no value. -/
def tileNoData : DEMTile :=
  { path := "nodata.tif"
    gt := ⟨0, 1, 0, 0, 0, 1⟩
    rx := 10
    ry := 10
    needTransform := false
    toDem := none
    minlon := -1
    maxlon := 11
    minlat := -1
    maxlat := 11
    nodata := none
    readPixel := fun _ _ => none }

/-! ## C5: reprojection failure while sampling -/

/-- A collaborator environment whose rasters carry EPSG 2056 (so tiles need
reprojection), whose native→WGS84 corner transform is the identity, and whose
WGS84→native point transform always fails. -/
def envFailDem : Env :=
  { listFolder := fun _ => []
    openRaster := fun _ =>
      some { gt := ⟨0, 1, 0, 0, 0, 1⟩
             rx := 10
             ry := 10
             epsg := some 2056
             nodata := none
             readPixel := fun _ _ => some 7 }
    toWgs := fun _ p => some p
    toDem := fun _ _ _ => none }

/-- A tile that needs reprojection and whose point transform always fails;
its footprint contains the origin. -/
def tileReproj : DEMTile :=
  { path := "lv95.tif"
    gt := ⟨0, 1, 0, 0, 0, 1⟩
    rx := 10
    ry := 10
    needTransform := true
    toDem := some fun _ _ => none
    minlon := -1
    maxlon := 11
    minlat := -1
    maxlat := 11
    nodata := none
    readPixel := fun _ _ => some 7 }

/-! ## C7: the "no data" conditions of `sample` -/

/-- Like `envFailDem` with a different raster grid, used to exhibit an
erroring `sample` for C7. -/
def envFailDem2 : Env :=
  { listFolder := fun _ => []
    openRaster := fun _ =>
      some { gt := ⟨2, 1, 0, 7, 0, -1⟩
             rx := 4
             ry := 3
             epsg := some 2056
             nodata := some (-9999)
             readPixel := fun _ _ => some 8 }
    toWgs := fun _ p => some p
    toDem := fun _ _ _ => none }

/-! ## C4: an open failure during batch loading -/

/-- An environment that lists one swisstopo-named file and cannot open any
raster. -/
def envOpenFail : Env :=
  { listFolder := fun _ => ["x_1-2_1_1_1.tif"]
    openRaster := fun _ => none
    toWgs := fun _ p => some p
    toDem := fun _ _ _ => none }

/-- A collaborator environment listing an empty folder. -/
def envEmpty : Env :=
  { listFolder := fun _ => []
    openRaster := fun _ => none
    toWgs := fun _ p => some p
    toDem := fun _ _ _ => none }

/-! ## Invariants of the classification loop -/

/-- All paths stored in the swisstopo groups, with multiplicity. -/
def gpaths : List Group → List String
  | [] => []
  | g :: gs => g.2.map Prod.snd ++ gpaths gs

/-- All paths stored in the ASTER candidate list. -/
def apaths (asters : List (AsterInfo × String)) : List String :=
  asters.map Prod.snd

/-- The group keys, in insertion order. -/
def keys (gs : List Group) : List (ℕ × ℕ) := gs.map Prod.fst

/-- Every group entry records exactly the parse of its own file name. -/
def groupsParse (gs : List Group) : Prop :=
  ∀ k entries, (k, entries) ∈ gs → ∀ e ∈ entries,
    parseSwiss e.2 = .ok (some ⟨k.1, k.2, e.1⟩)

/-- Every ASTER candidate records the parse of its own file name, and its
name does not match the swisstopo pattern. -/
def astersParse (asters : List (AsterInfo × String)) : Prop :=
  ∀ pr ∈ asters, parseAster pr.2 = some pr.1 ∧ parseSwiss pr.2 = .ok none

/-! ## Concrete scenarios for the selection theorems -/

/-- Two swisstopo names sharing cell (12, 7), resolutions 0.5 and 2. -/
def n05 : String := "grid_12-07_0.5_1_1.tif"

/-- The coarser duplicate of `n05` in the same cell. -/
def n2 : String := "grid_12-07_2_1_1.tif"

/-- The group entries for cell (12, 7): the 0.5 m file then the 2 m file. -/
def entriesW : List (ℚ × String) := [((1 : ℚ) / 2, n05), (2, n2)]

/-- An environment listing the two same-cell swisstopo files, all rasters
opening onto the unit-pixel grid over `[0, 10]²` with no reprojection. -/
def envSwiss : Env :=
  { listFolder := fun _ => [n05, n2]
    openRaster := fun _ =>
      some { gt := ⟨0, 1, 0, 10, 0, -1⟩
             rx := 10
             ry := 10
             epsg := none
             nodata := none
             readPixel := fun _ _ => some 100 }
    toWgs := fun _ p => some p
    toDem := fun _ _ _ => none }

/-- The tile `envSwiss` rasters open onto. -/
def tileSwissW : DEMTile :=
  { path := n05
    gt := ⟨0, 1, 0, 10, 0, -1⟩
    rx := 10
    ry := 10
    needTransform := false
    toDem := none
    minlon := 0 - 1 / 1000000
    maxlon := 10 + 1 / 1000000
    minlat := 0 - 1 / 1000000
    maxlat := 10 + 1 / 1000000
    nodata := none
    readPixel := fun _ _ => some 100 }

/-- The ASTER file name of the spec's fallback scenario. -/
def nAster : String := "ASTGTMV3_N46E008_dem.tif"

/-- The classification of `nAster`: the 1°×1° cell `[46, 47] × [8, 9]`. -/
def asterInfoW : AsterInfo := ⟨46, 47, 8, 9, 30⟩

/-- An environment listing only the ASTER file, whose raster is one pixel
covering that cell, in geographic coordinates. -/
def envAster : Env :=
  { listFolder := fun _ => [nAster]
    openRaster := fun _ =>
      some { gt := ⟨8, 1, 0, 47, 0, -1⟩
             rx := 1
             ry := 1
             epsg := none
             nodata := none
             readPixel := fun _ _ => some 1500 }
    toWgs := fun _ p => some p
    toDem := fun _ _ _ => none }

/-- The tile `envAster` rasters open onto. -/
def tileAsterW : DEMTile :=
  { path := nAster
    gt := ⟨8, 1, 0, 47, 0, -1⟩
    rx := 1
    ry := 1
    needTransform := false
    toDem := none
    minlon := 8 - 1 / 1000000
    maxlon := 9 + 1 / 1000000
    minlat := 46 - 1 / 1000000
    maxlat := 47 + 1 / 1000000
    nodata := none
    readPixel := fun _ _ => some 1500 }

/-- The query box of the single point (46.5, 8.5). -/
def boxW : Box := ⟨93 / 2, 93 / 2, 17 / 2, 17 / 2⟩

/-- `roundHalfUp` is `⌊v + 1/2⌋`. -/
theorem roundHalfUp_eq_floor (v : ℚ) : roundHalfUp v = ⌊v + 1 / 2⌋ := by
  show Rat.floor (v + 1 / 2) = ⌊v + 1 / 2⌋
  rw [Rat.floor_def', Rat.floor_def]

/-! ## C1: probing order of `DEMManager.get_elevation` -/

/-- C1: the query probes tiles in list order: a containing tile with a real
value returns immediately; a non-containing tile is skipped without being
sampled; a containing tile answering "no data" is passed over, so that with
two containing tiles where the first is nodata and the second real, the
second tile's value is returned; and when every containing tile answers "no
data" the query returns "no data". -/
theorem C1_query_probe_order :
    (∀ (t1 t2 : DEMTile) (lat lon v : ℚ),
       t1.bbox_contains lat lon = true →
       t2.bbox_contains lat lon = true →
       t1.get_elevation lat lon = .ok none →
       t2.get_elevation lat lon = .ok (some v) →
       queryTiles [t1, t2] lat lon = .ok (some v)) ∧
    (∀ (t : DEMTile) (rest : List DEMTile) (lat lon v : ℚ),
       t.bbox_contains lat lon = true →
       t.get_elevation lat lon = .ok (some v) →
       queryTiles (t :: rest) lat lon = .ok (some v)) ∧
    (∀ (t : DEMTile) (rest : List DEMTile) (lat lon : ℚ),
       t.bbox_contains lat lon = false →
       queryTiles (t :: rest) lat lon = queryTiles rest lat lon) ∧
    (∀ (tiles : List DEMTile) (lat lon : ℚ),
       (∀ t ∈ tiles, t.bbox_contains lat lon = true →
          t.get_elevation lat lon = .ok none) →
       queryTiles tiles lat lon = .ok none) := by
  refine ⟨?_, ?_, ?_, ?_⟩
  · intro t1 t2 lat lon v h1 h2 hn hv
    simp [queryTiles, h1, h2, hn, hv]
  · intro t rest lat lon v h1 hv
    simp [queryTiles, h1, hv]
  · intro t rest lat lon h1
    simp [queryTiles, h1]
  · intro tiles lat lon h
    induction tiles with
    | nil => simp [queryTiles]
    | cons t rest ih =>
      by_cases hc : t.bbox_contains lat lon = true
      · have := h t (by simp) hc
        simp only [queryTiles, hc, if_true, this]
        exact ih fun t2 ht2 => h t2 (by simp [ht2])
      · simp only [queryTiles, Bool.not_eq_true] at hc ⊢
        simp only [hc, if_false]
        exact ih fun t2 ht2 => h t2 (by simp [ht2])

/-- Witness for C1 at a concrete pair of overlapping tiles: the first
contains the point but reads no value, the second returns 5. -/
theorem C1_witness : queryTiles [tileNoData, tileVal 5] 0 0 = .ok (some 5) :=
  C1_query_probe_order.1 tileNoData (tileVal 5) 0 0 5
    (by decide) (by decide) (by with_unfolding_all rfl) (by with_unfolding_all rfl)

/-! ## C8: nearest-pixel rounding `floor(v + 0.5)` -/

/-- C8: sampling reads the single pixel at indices obtained by inverting the
affine transform and rounding with `floor(v + 0.5)` (no interpolation: any
returned elevation is a raw pixel read at those indices); `roundHalfUp` is
literally `⌊v + 1/2⌋`, rounds half-integers up, and moves a value by at most
one half. -/
theorem C8_rounding_rule :
    (∀ (t : DEMTile) (x y z : ℚ), t.samplePixel x y = some z →
       t.readPixel (roundHalfUp ((x - t.gt.x0) / t.gt.pxW)).toNat
                   (roundHalfUp ((y - t.gt.y0) / t.gt.pxH)).toNat = some z) ∧
    (∀ v : ℚ, roundHalfUp v = ⌊v + 1 / 2⌋) ∧
    (∀ n : ℤ, roundHalfUp ((n : ℚ) + 1 / 2) = n + 1) ∧
    (∀ v : ℚ, -(1 / 2) < (roundHalfUp v : ℚ) - v ∧ (roundHalfUp v : ℚ) - v ≤ 1 / 2) := by
  refine ⟨?_, roundHalfUp_eq_floor, ?_, ?_⟩
  · intro t x y z h
    simp only [DEMTile.samplePixel] at h
    split at h
    · split at h
      · exact absurd h (by simp)
      · split at h
        · split at h
          · exact absurd h (by simp)
          · simp_all [pixelX, pixelY]
        · simp_all [pixelX, pixelY]
    · exact absurd h (by simp)
  · intro n
    rw [roundHalfUp_eq_floor]
    have h2 : (n : ℚ) + 1 / 2 + 1 / 2 = (n : ℚ) + 1 := by ring
    rw [h2, show ((n : ℚ) + 1) = ((n + 1 : ℤ) : ℚ) by push_cast; ring]
    exact Int.floor_intCast _
  · intro v
    rw [roundHalfUp_eq_floor]
    constructor
    · have h := Int.lt_floor_add_one (v + 1 / 2)
      linarith
    · have h := Int.floor_le (v + 1 / 2)
      linarith

/-- Witness for C8: at the concrete tile `tileVal 5` and point (0, 0), the
sampled value is the raw pixel read at the rounded indices; and the tie 3/2
rounds up to 2. -/
theorem C8_witness :
    (tileVal 5).readPixel
        (roundHalfUp ((0 - (tileVal 5).gt.x0) / (tileVal 5).gt.pxW)).toNat
        (roundHalfUp ((0 - (tileVal 5).gt.y0) / (tileVal 5).gt.pxH)).toNat = some 5 ∧
      roundHalfUp (((1 : ℤ) : ℚ) + 1 / 2) = 1 + 1 :=
  ⟨C8_rounding_rule.1 (tileVal 5) 0 0 5 (by with_unfolding_all rfl),
   C8_rounding_rule.2.2.1 1⟩

/-! ## C10: the empty query batch -/

/-- C10: on the empty batch, `load_tiles_for_coords` fails with the error of
`min` over an empty list; it never returns a manager (in particular not one
with an empty tile list, and the previous `tiles` are not handed back). -/
theorem C10_empty_batch_errors (env : Env) (m : DEMManager) :
    DEMManager.load_tiles_for_coords env m [] = .error .emptyMin ∧
      ∀ m2 : DEMManager, DEMManager.load_tiles_for_coords env m [] ≠ .ok m2 := by
  constructor
  · simp [DEMManager.load_tiles_for_coords, load_core, queryBox]
  · intro m2
    simp [DEMManager.load_tiles_for_coords, load_core, queryBox]

/-- C5 counterexample: for the tile the manager's own constructor builds from
`envFailDem`, a failing point reprojection makes `get_elevation` raise, and
the query over the loaded tile list propagates the error instead of
answering "no data". -/
theorem C5_counterexample :
    (mkDEMTile envFailDem "lv95.tif").bind (fun t => t.get_elevation 0 0) =
        .error .reprojError ∧
      (mkDEMTile envFailDem "lv95.tif").bind (fun t => queryTiles [t] 0 0) =
        .error .reprojError := by
  constructor
  · with_unfolding_all rfl
  · with_unfolding_all rfl

/-- C5 as amended: when the reprojection collaborator fails to transform a
query point into the tile's native CRS, `get_elevation` raises
(`ReprojectionError`), and the error propagates out of the manager's query
instead of being treated as "no data". -/
theorem C5_reproj_error_propagates (t : DEMTile) (f : ℚ → ℚ → Option (ℚ × ℚ))
    (lat lon : ℚ) (h1 : t.needTransform = true) (h2 : t.toDem = some f)
    (h3 : f lon lat = none) :
    t.get_elevation lat lon = .error .reprojError ∧
      ∀ rest : List DEMTile, t.bbox_contains lat lon = true →
        queryTiles (t :: rest) lat lon = .error .reprojError := by
  have hnat : t.nativeXY lat lon = .error .reprojError := by
    simp [DEMTile.nativeXY, h1, h2, h3]
  have hget : t.get_elevation lat lon = .error .reprojError := by
    simp [DEMTile.get_elevation, hnat]
  refine ⟨hget, fun rest hc => ?_⟩
  simp [queryTiles, hc, hget]

/-- Witness for C5 (amended) at the concrete tile `tileReproj`. -/
theorem C5_witness : queryTiles [tileReproj] 0 0 = .error .reprojError :=
  (C5_reproj_error_propagates tileReproj (fun _ _ => none) 0 0 rfl rfl rfl).2
    [] (by decide)

/-- C7 counterexample: `sample` is not error-free — on a tile whose point
reprojection fails, `get_elevation` yields an error, not "no data". -/
theorem C7_counterexample :
    (mkDEMTile envFailDem2 "b.tif").bind (fun t => t.get_elevation 3 4) =
      .error .reprojError := by
  with_unfolding_all rfl

/-- C7 as amended: whenever the native-coordinate step succeeds (no
reprojection needed, or the transform returns a point), `sample` never
errors, and it yields "no data" exactly when the rounded pixel indices fall
outside `[0, rx) × [0, ry)`, the pixel read yields no value, or a nodata
sentinel is defined and the read value equals it; otherwise it returns the
read pixel value. -/
theorem C7_sample_nodata_conditions (t : DEMTile) (lat lon x y : ℚ)
    (h : t.nativeXY lat lon = .ok (x, y)) :
    t.get_elevation lat lon = .ok (t.samplePixel x y) ∧
      (t.samplePixel x y = none ↔
        ¬(0 ≤ pixelX t x ∧ pixelX t x < (t.rx : ℤ) ∧
          0 ≤ pixelY t y ∧ pixelY t y < (t.ry : ℤ)) ∨
        t.readPixel (pixelX t x).toNat (pixelY t y).toNat = none ∨
        ∃ nd, t.nodata = some nd ∧
          t.readPixel (pixelX t x).toNat (pixelY t y).toNat = some nd) ∧
      ∀ z, t.samplePixel x y = some z →
        t.readPixel (pixelX t x).toNat (pixelY t y).toNat = some z := by
  refine ⟨by simp [DEMTile.get_elevation, h], ?_, ?_⟩
  · by_cases hb : 0 ≤ pixelX t x ∧ pixelX t x < (t.rx : ℤ) ∧
        0 ≤ pixelY t y ∧ pixelY t y < (t.ry : ℤ)
    · simp only [DEMTile.samplePixel, hb, if_true]
      cases hr : t.readPixel (pixelX t x).toNat (pixelY t y).toNat with
      | none => simp [hb, hr]
      | some z =>
        cases hn : t.nodata with
        | none => simp [hb, hr, hn]
        | some nd =>
          by_cases hz : z = nd
          · subst hz
            simp [hb, hr, hn]
          · simp [hb, hr, hn, hz]
    · simp [DEMTile.samplePixel, hb]
  · intro z hz
    simp only [DEMTile.samplePixel] at hz
    split at hz
    · cases hr : t.readPixel (pixelX t x).toNat (pixelY t y).toNat with
      | none => rw [hr] at hz; simp at hz
      | some w =>
        rw [hr] at hz
        cases hn : t.nodata with
        | none => rw [hn] at hz; simp at hz; rw [hz]
        | some nd =>
          rw [hn] at hz
          by_cases hw : w = nd
          · simp [hw] at hz
          · simp [hw] at hz; rw [hz]
    · simp at hz

/-- Witness for C7 (amended) at a tile needing no reprojection. -/
theorem C7_witness :
    (tileVal 5).get_elevation 0 0 = .ok ((tileVal 5).samplePixel 0 0) :=
  (C7_sample_nodata_conditions (tileVal 5) 0 0 0 0 (by rfl)).1

/-- C4 counterexample: when the raster collaborator cannot open the selected
file, the whole batch load fails with the open error; the tile is not
dropped and the load does not complete for the remaining tiles. -/
theorem C4_counterexample :
    DEMManager.load_tiles_for_coords envOpenFail ⟨"dem", []⟩ [(0, 0)] =
      .error .openError := by
  with_unfolding_all rfl

/-- C4 as amended: an `OpenError` on a selected file propagates out of
`load_tiles_for_coords` and aborts the whole batch load (here: the finest
file of the first swisstopo group fails to open, and the load returns the
open error rather than any tile list). -/
theorem C4_open_error_aborts (env : Env) (files : List String)
    (coords : List (ℚ × ℚ)) (q : Box) (groups : List Group)
    (asters : List (AsterInfo × String)) (k : ℕ × ℕ)
    (entries : List (ℚ × String)) (rest : List Group) (e : ℚ × String)
    (es : List (ℚ × String))
    (hq : queryBox coords = some q)
    (hscan : scanFiles files = .ok (groups, asters))
    (hg : groups = (k, entries) :: rest)
    (hs : sortByRes entries = e :: es)
    (hopen : env.openRaster e.2 = none) :
    load_core env files coords = .error .openError ∧
      ∀ r, load_core env files coords ≠ .ok r := by
  have hproc : processSwissGroups env q groups = .error .openError := by
    rw [hg]
    simp only [processSwissGroups, hs]
    have : mkDEMTile env e.2 = .error .openError := by
      simp [mkDEMTile, hopen]
    rw [this]
  have : load_core env files coords = .error .openError := by
    simp only [load_core, hq, hscan, hproc]
  exact ⟨this, fun r hr => by rw [this] at hr; exact Except.noConfusion hr⟩

/-- Witness for C4 (amended) at the concrete failing environment. -/
theorem C4_witness :
    load_core envOpenFail ["x_1-2_1_1_1.tif"] [(0, 0)] = .error .openError :=
  (C4_open_error_aborts envOpenFail ["x_1-2_1_1_1.tif"] [(0, 0)] _ _ _ _ _ _ _ _
    (by with_unfolding_all rfl) (by with_unfolding_all rfl) rfl
    (by with_unfolding_all rfl) rfl).1

/-! ## C9: determinism and idempotence of batch loading -/

/-- C9: reloading with the same folder listing and the same batch is
idempotent (the second call returns the manager unchanged), and the result's
tile list depends only on the folder name and the batch, not on the
previously loaded tiles. -/
theorem C9_load_deterministic_idempotent :
    (∀ (env : Env) (m m1 : DEMManager) (coords : List (ℚ × ℚ)),
       DEMManager.load_tiles_for_coords env m coords = .ok m1 →
       DEMManager.load_tiles_for_coords env m1 coords = .ok m1) ∧
    (∀ (env : Env) (m m2 : DEMManager) (coords : List (ℚ × ℚ)),
       m.dem_folder = m2.dem_folder →
       ∀ m1, DEMManager.load_tiles_for_coords env m coords = .ok m1 →
         ∃ m3, DEMManager.load_tiles_for_coords env m2 coords = .ok m3 ∧
           m3.tiles = m1.tiles) := by
  constructor
  · intro env m m1 coords h
    simp only [DEMManager.load_tiles_for_coords] at h ⊢
    cases hc : load_core env (env.listFolder m.dem_folder) coords with
    | error e => rw [hc] at h; exact absurd h (by simp)
    | ok r =>
      rw [hc] at h
      obtain ⟨ts, c, o⟩ := r
      simp only [Except.ok.injEq] at h
      have hfold : m1.dem_folder = m.dem_folder := by rw [← h]
      have htiles : m1.tiles = ts := by rw [← h]
      rw [hfold, hc]
      simp only [Except.ok.injEq]
      cases m1
      simp_all
  · intro env m m2 coords hfold m1 h
    simp only [DEMManager.load_tiles_for_coords] at h ⊢
    cases hc : load_core env (env.listFolder m.dem_folder) coords with
    | error e => rw [hc] at h; exact absurd h (by simp)
    | ok r =>
      rw [hc] at h
      obtain ⟨ts, c, o⟩ := r
      simp only [Except.ok.injEq] at h
      rw [← hfold, hc]
      exact ⟨_, rfl, by rw [← h]⟩

/-- Witness for C9: a second load over the empty folder returns the manager
unchanged. -/
theorem C9_witness :
    DEMManager.load_tiles_for_coords envEmpty ⟨"d", []⟩ [(0, 0)] =
      .ok ⟨"d", []⟩ :=
  C9_load_deterministic_idempotent.1 envEmpty ⟨"d", []⟩ ⟨"d", []⟩ [(0, 0)]
    (by with_unfolding_all rfl)

/-! ## Properties of the per-group resolution sort -/

theorem insertSorted_perm (x : ℚ × String) (l : List (ℚ × String)) :
    (insertSorted x l).Perm (x :: l) := by
  induction l with
  | nil => simp [insertSorted]
  | cons y ys ih =>
    simp only [insertSorted]
    split
    · exact List.Perm.refl _
    · exact (ih.cons y).trans (List.Perm.swap x y ys)

theorem sortByRes_perm (l : List (ℚ × String)) : (sortByRes l).Perm l := by
  induction l with
  | nil => simp [sortByRes]
  | cons x xs ih =>
    exact (insertSorted_perm x (sortByRes xs)).trans (ih.cons x)

theorem insertSorted_pairwise (x : ℚ × String) (l : List (ℚ × String))
    (h : l.Pairwise (fun a b => a.1 ≤ b.1)) :
    (insertSorted x l).Pairwise (fun a b => a.1 ≤ b.1) := by
  induction l with
  | nil => simp [insertSorted]
  | cons y ys ih =>
    rw [List.pairwise_cons] at h
    simp only [insertSorted]
    split
    · rename_i hxy
      refine List.pairwise_cons.mpr ⟨?_, List.pairwise_cons.mpr h⟩
      intro z hz
      rcases List.mem_cons.mp hz with hz | hz
      · rw [hz]; exact hxy
      · exact le_trans hxy (h.1 z hz)
    · rename_i hxy
      refine List.pairwise_cons.mpr ⟨?_, ih h.2⟩
      intro z hz
      rcases List.mem_cons.mp ((insertSorted_perm x ys).mem_iff.mp hz) with hz | hz
      · rw [hz]; exact le_of_not_le hxy
      · exact h.1 z hz

theorem sortByRes_pairwise (l : List (ℚ × String)) :
    (sortByRes l).Pairwise (fun a b => a.1 ≤ b.1) := by
  induction l with
  | nil => simp [sortByRes]
  | cons x xs ih => exact insertSorted_pairwise x (sortByRes xs) ih

/-- The head of the sorted group is a member of the group. -/
theorem sortByRes_head_mem {l : List (ℚ × String)} {e : ℚ × String}
    {es : List (ℚ × String)} (h : sortByRes l = e :: es) : e ∈ l := by
  have : e ∈ sortByRes l := by rw [h]; exact List.mem_cons_self e es
  exact (sortByRes_perm l).mem_iff.mp this

/-- The head of the sorted group has minimal resolution in the group. -/
theorem sortByRes_head_min {l : List (ℚ × String)} {e : ℚ × String}
    {es : List (ℚ × String)} (h : sortByRes l = e :: es) :
    ∀ a ∈ l, e.1 ≤ a.1 := by
  intro a ha
  have hmem : a ∈ e :: es := by
    rw [← h]; exact (sortByRes_perm l).mem_iff.mpr ha
  rcases List.mem_cons.mp hmem with hmem | hmem
  · rw [hmem]
  · have hp := sortByRes_pairwise l
    rw [h, List.pairwise_cons] at hp
    exact hp.1 a hmem

/-- The members of the sorted tail are members of the group. -/
theorem sortByRes_tail_mem {l : List (ℚ × String)} {e : ℚ × String}
    {es : List (ℚ × String)} (h : sortByRes l = e :: es) :
    ∀ a ∈ es, a ∈ l := by
  intro a ha
  have : a ∈ sortByRes l := by rw [h]; exact List.mem_cons_of_mem e ha
  exact (sortByRes_perm l).mem_iff.mp this

theorem insertGroup_mem {k : ℕ × ℕ} {v : ℚ × String} {gs : List Group}
    {k2 : ℕ × ℕ} {entries : List (ℚ × String)}
    (h : (k2, entries) ∈ insertGroup k v gs) :
    (k2, entries) ∈ gs ∨
      (k2 = k ∧ ∃ prev, entries = prev ++ [v] ∧
        ((k2, prev) ∈ gs ∨ prev = [])) := by
  induction gs with
  | nil =>
    simp only [insertGroup, List.mem_singleton] at h
    obtain ⟨h1, h2⟩ := Prod.mk.injEq .. ▸ h
    exact Or.inr ⟨h1, [], by simpa using h2, Or.inr rfl⟩
  | cons g gs ih =>
    obtain ⟨k3, vs⟩ := g
    simp only [insertGroup] at h
    split at h
    · rename_i heq
      rcases List.mem_cons.mp h with h | h
      · obtain ⟨h1, h2⟩ := Prod.mk.injEq .. ▸ h
        exact Or.inr ⟨h1.trans heq, vs, h2, Or.inl (by rw [h1]; exact List.mem_cons_self _ _)⟩
      · exact Or.inl (List.mem_cons_of_mem _ h)
    · rcases List.mem_cons.mp h with h | h
      · exact Or.inl (by rw [h]; exact List.mem_cons_self _ _)
      · rcases ih h with h | ⟨h1, prev, h2, h3⟩
        · exact Or.inl (List.mem_cons_of_mem _ h)
        · refine Or.inr ⟨h1, prev, h2, ?_⟩
          rcases h3 with h3 | h3
          · exact Or.inl (List.mem_cons_of_mem _ h3)
          · exact Or.inr h3

theorem groupsParse_insert {i : SwissInfo} {name : String} {gs : List Group}
    (hp : parseSwiss name = .ok (some i)) (hg : groupsParse gs) :
    groupsParse (insertGroup (i.ix, i.iy) (i.res, name) gs) := by
  intro k entries hmem e he
  rcases insertGroup_mem hmem with hmem | ⟨hk, prev, hent, hprev⟩
  · exact hg k entries hmem e he
  · subst hk
    rw [hent] at he
    rcases List.mem_append.mp he with he | he
    · rcases hprev with hprev | hprev
      · exact hg _ prev hprev e he
      · rw [hprev] at he; simp at he
    · rw [List.mem_singleton] at he
      subst he
      exact hp

theorem scan_groupsParse :
    ∀ (files : List String) (gs : List Group) (asters : List (AsterInfo × String))
      (gs2 : List Group) (as2 : List (AsterInfo × String)),
      scanFilesAux files gs asters = .ok (gs2, as2) → groupsParse gs →
      groupsParse gs2 := by
  intro files
  induction files with
  | nil =>
    intro gs asters gs2 as2 h hg
    simp only [scanFilesAux, Except.ok.injEq, Prod.mk.injEq] at h
    rw [← h.1]; exact hg
  | cons name rest ih =>
    intro gs asters gs2 as2 h hg
    simp only [scanFilesAux] at h
    cases hp : parseSwiss name with
    | error e => rw [hp] at h; exact absurd h (by simp)
    | ok oi =>
      rw [hp] at h
      cases oi with
      | some i => exact ih _ _ _ _ h (groupsParse_insert hp hg)
      | none =>
        cases ha : parseAster name with
        | some a => rw [ha] at h; exact ih _ _ _ _ h hg
        | none => rw [ha] at h; exact ih _ _ _ _ h hg

theorem scan_astersParse :
    ∀ (files : List String) (gs : List Group) (asters : List (AsterInfo × String))
      (gs2 : List Group) (as2 : List (AsterInfo × String)),
      scanFilesAux files gs asters = .ok (gs2, as2) → astersParse asters →
      astersParse as2 := by
  intro files
  induction files with
  | nil =>
    intro gs asters gs2 as2 h ha
    simp only [scanFilesAux, Except.ok.injEq, Prod.mk.injEq] at h
    rw [← h.2]; exact ha
  | cons name rest ih =>
    intro gs asters gs2 as2 h hasters
    simp only [scanFilesAux] at h
    cases hp : parseSwiss name with
    | error e => rw [hp] at h; exact absurd h (by simp)
    | ok oi =>
      rw [hp] at h
      cases oi with
      | some i => exact ih _ _ _ _ h hasters
      | none =>
        cases ha : parseAster name with
        | some a =>
          rw [ha] at h
          refine ih _ _ _ _ h ?_
          intro pr hpr
          rcases List.mem_append.mp hpr with hpr | hpr
          · exact hasters pr hpr
          · rw [List.mem_singleton] at hpr
            subst hpr
            exact ⟨ha, hp⟩
        | none => rw [ha] at h; exact ih _ _ _ _ h hasters

theorem keys_insertGroup (k : ℕ × ℕ) (v : ℚ × String) (gs : List Group) :
    keys (insertGroup k v gs) =
      if k ∈ keys gs then keys gs else keys gs ++ [k] := by
  induction gs with
  | nil => simp [insertGroup, keys]
  | cons g gs ih =>
    obtain ⟨k2, vs⟩ := g
    simp only [insertGroup]
    split
    · rename_i heq
      subst heq
      simp [keys]
    · rename_i hne
      simp only [keys, List.map_cons] at ih ⊢
      rw [ih]
      by_cases hk : k ∈ gs.map Prod.fst
      · simp [hk]
      · have hne2 : ¬k = k2 := fun h => hne h.symm
        simp [hk, hne2]

theorem keysNodup_insertGroup (k : ℕ × ℕ) (v : ℚ × String) (gs : List Group)
    (h : (keys gs).Nodup) : (keys (insertGroup k v gs)).Nodup := by
  rw [keys_insertGroup]
  split
  · exact h
  · rename_i hk
    simp [List.nodup_append, h, hk]

theorem scan_keysNodup :
    ∀ (files : List String) (gs : List Group) (asters : List (AsterInfo × String))
      (gs2 : List Group) (as2 : List (AsterInfo × String)),
      scanFilesAux files gs asters = .ok (gs2, as2) → (keys gs).Nodup →
      (keys gs2).Nodup := by
  intro files
  induction files with
  | nil =>
    intro gs asters gs2 as2 h hg
    simp only [scanFilesAux, Except.ok.injEq, Prod.mk.injEq] at h
    rw [← h.1]; exact hg
  | cons name rest ih =>
    intro gs asters gs2 as2 h hg
    simp only [scanFilesAux] at h
    cases hp : parseSwiss name with
    | error e => rw [hp] at h; exact absurd h (by simp)
    | ok oi =>
      rw [hp] at h
      cases oi with
      | some i => exact ih _ _ _ _ h (keysNodup_insertGroup _ _ _ hg)
      | none =>
        cases ha : parseAster name with
        | some a => rw [ha] at h; exact ih _ _ _ _ h hg
        | none => rw [ha] at h; exact ih _ _ _ _ h hg

/-- With nodup keys, a key determines its group. -/
theorem groups_key_unique {gs : List Group} {k : ℕ × ℕ}
    {a b : List (ℚ × String)} (h : (keys gs).Nodup)
    (ha : (k, a) ∈ gs) (hb : (k, b) ∈ gs) : a = b := by
  induction gs with
  | nil => simp at ha
  | cons g gs ih =>
    obtain ⟨k2, vs⟩ := g
    simp only [keys, List.map_cons, List.nodup_cons] at h
    rcases List.mem_cons.mp ha with ha | ha <;> rcases List.mem_cons.mp hb with hb | hb
    · obtain ⟨-, ha2⟩ := Prod.mk.injEq .. ▸ ha
      obtain ⟨-, hb2⟩ := Prod.mk.injEq .. ▸ hb
      rw [ha2, hb2]
    · obtain ⟨ha1, -⟩ := Prod.mk.injEq .. ▸ ha
      exact absurd (List.mem_map.mpr ⟨(k, b), hb, by rw [ha1]⟩) h.1
    · obtain ⟨hb1, -⟩ := Prod.mk.injEq .. ▸ hb
      exact absurd (List.mem_map.mpr ⟨(k, a), ha, by rw [hb1]⟩) h.1
    · exact ih h.2 ha hb

theorem gpaths_insertGroup (k : ℕ × ℕ) (v : ℚ × String) (gs : List Group) :
    (gpaths (insertGroup k v gs)).Perm (v.2 :: gpaths gs) := by
  induction gs with
  | nil => simp [insertGroup, gpaths]
  | cons g gs ih =>
    obtain ⟨k2, vs⟩ := g
    simp only [insertGroup]
    split
    · simp only [gpaths, List.map_append, List.map_cons, List.map_nil]
      have h1 : (vs.map Prod.snd ++ [v.2]) ++ gpaths gs
          = vs.map Prod.snd ++ (v.2 :: gpaths gs) := by
        rw [List.append_assoc]; rfl
      rw [h1]
      exact List.perm_middle
    · simp only [gpaths]
      exact (List.Perm.append_left (vs.map Prod.snd) ih).trans List.perm_middle

/-- A group's entry paths form a sublist of all group paths. -/
theorem gpaths_group_sublist {gs : List Group} {k : ℕ × ℕ}
    {entries : List (ℚ × String)} (h : (k, entries) ∈ gs) :
    (entries.map Prod.snd).Sublist (gpaths gs) := by
  induction gs with
  | nil => simp at h
  | cons g gs ih =>
    rcases List.mem_cons.mp h with h | h
    · have : entries.map Prod.snd = g.2.map Prod.snd := by rw [← h]
      rw [this]
      exact List.sublist_append_left _ _
    · exact (ih h).trans (List.sublist_append_right _ _)

theorem scan_pathsNodup :
    ∀ (files : List String) (gs : List Group) (asters : List (AsterInfo × String))
      (gs2 : List Group) (as2 : List (AsterInfo × String)),
      scanFilesAux files gs asters = .ok (gs2, as2) →
      (gpaths gs ++ (apaths asters ++ files)).Nodup →
      (gpaths gs2 ++ apaths as2).Nodup := by
  intro files
  induction files with
  | nil =>
    intro gs asters gs2 as2 h hn
    simp only [scanFilesAux, Except.ok.injEq, Prod.mk.injEq] at h
    rw [← h.1, ← h.2]
    simpa using hn
  | cons name rest ih =>
    intro gs asters gs2 as2 h hn
    simp only [scanFilesAux] at h
    cases hp : parseSwiss name with
    | error e => rw [hp] at h; exact absurd h (by simp)
    | ok oi =>
      rw [hp] at h
      cases oi with
      | some i =>
        refine ih _ _ _ _ h ?_
        have p1 : (gpaths gs ++ (apaths asters ++ (name :: rest))).Perm
            (name :: (gpaths gs ++ (apaths asters ++ rest))) :=
          (List.Perm.append_left (gpaths gs) List.perm_middle).trans
            List.perm_middle
        have p2 : (gpaths (insertGroup (i.ix, i.iy) (i.res, name) gs) ++
            (apaths asters ++ rest)).Perm
            (name :: (gpaths gs ++ (apaths asters ++ rest))) :=
          List.Perm.append_right (apaths asters ++ rest)
            (gpaths_insertGroup (i.ix, i.iy) (i.res, name) gs)
        exact p2.symm.nodup (p1.nodup hn)
      | none =>
        cases ha : parseAster name with
        | some a =>
          rw [ha] at h
          refine ih _ _ _ _ h ?_
          have heq : apaths (asters ++ [(a, name)]) = apaths asters ++ [name] := by
            simp [apaths]
          rw [heq, List.append_assoc]
          simpa using hn
        | none =>
          rw [ha] at h
          refine ih _ _ _ _ h ?_
          have hs : (gpaths gs ++ (apaths asters ++ rest)).Sublist
              (gpaths gs ++ (apaths asters ++ (name :: rest))) := by
            refine List.Sublist.append_left ?_ _
            exact List.Sublist.append_left (List.sublist_cons_self _ _) _
          exact hn.sublist hs

/-! ## Properties of the per-group selection loop -/

/-- Every path opened by the group loop is the head of some group's sorted
entry list. -/
theorem proc_opened_mem {env : Env} {q : Box} :
    ∀ {gs : List Group} {chosen opened : List String},
      processSwissGroups env q gs = .ok (chosen, opened) →
      ∀ p ∈ opened, ∃ k entries e es, (k, entries) ∈ gs ∧
        sortByRes entries = e :: es ∧ p = e.2 := by
  intro gs
  induction gs with
  | nil =>
    intro chosen opened h p hp
    simp only [processSwissGroups, Except.ok.injEq, Prod.mk.injEq] at h
    rw [← h.2] at hp
    simp at hp
  | cons g gs ih =>
    intro chosen opened h p hp
    obtain ⟨k0, entries0⟩ := g
    simp only [processSwissGroups] at h
    split at h
    · exact absurd h (by simp)
    rename_i e es hs
    split at h
    · exact absurd h (by simp)
    rename_i t hmk
    split at h
    · exact absurd h (by simp)
    rename_i c o hrec
    simp only [Except.ok.injEq, Prod.mk.injEq] at h
    rw [← h.2] at hp
    rcases List.mem_cons.mp hp with hp | hp
    · exact ⟨k0, entries0, e, es, List.mem_cons_self _ _, hs, hp⟩
    · obtain ⟨k2, en2, e2, es2, hm, hs2, hp2⟩ := ih hrec p hp
      exact ⟨k2, en2, e2, es2, List.mem_cons_of_mem _ hm, hs2, hp2⟩

/-- Every chosen path was opened by the group loop. -/
theorem proc_chosen_sub {env : Env} {q : Box} :
    ∀ {gs : List Group} {chosen opened : List String},
      processSwissGroups env q gs = .ok (chosen, opened) →
      ∀ p ∈ chosen, p ∈ opened := by
  intro gs
  induction gs with
  | nil =>
    intro chosen opened h p hp
    simp only [processSwissGroups, Except.ok.injEq, Prod.mk.injEq] at h
    rw [← h.1] at hp
    simp at hp
  | cons g gs ih =>
    intro chosen opened h p hp
    obtain ⟨k0, entries0⟩ := g
    simp only [processSwissGroups] at h
    split at h
    · exact absurd h (by simp)
    rename_i e es hs
    split at h
    · exact absurd h (by simp)
    rename_i t hmk
    split at h
    · exact absurd h (by simp)
    rename_i c o hrec
    simp only [Except.ok.injEq, Prod.mk.injEq] at h
    rw [← h.1] at hp
    rw [← h.2]
    rcases List.mem_append.mp hp with hp | hp
    · split at hp
      · have hpe : p = e.2 := by simpa using hp
        rw [hpe]
        exact List.mem_cons_self _ _
      · simp at hp
    · exact List.mem_cons_of_mem _ (ih hrec p hp)

/-- Destructuring of a successful `load_core` run into its stages. -/
theorem load_core_eq {env : Env} {files : List String} {coords : List (ℚ × ℚ)}
    {q : Box} {groups : List Group} {asters : List (AsterInfo × String)}
    {chosen opened : List String} {tiles : List DEMTile}
    {final openedAll : List String}
    (hq : queryBox coords = some q)
    (hscan : scanFiles files = .ok (groups, asters))
    (hproc : processSwissGroups env q groups = .ok (chosen, opened))
    (hload : load_core env files coords = .ok (tiles, final, openedAll)) :
    final = (if chosen.isEmpty then
        (asters.filter (fun ap => asterOverlaps ap.1 q)).map Prod.snd
      else chosen) ∧
      openedAll = opened ++ final ∧ openAll env final = .ok tiles := by
  simp only [load_core, hq, hscan, hproc] at hload
  cases ho : openAll env (if chosen.isEmpty then
      (asters.filter (fun ap => asterOverlaps ap.1 q)).map Prod.snd
    else chosen) with
  | error e => rw [ho] at hload; exact absurd hload (by simp)
  | ok ts =>
    rw [ho] at hload
    simp only [Except.ok.injEq, Prod.mk.injEq] at hload
    obtain ⟨h1, h2, h3⟩ := hload
    exact ⟨h2.symm, by rw [← h3, ← h2], by rw [← h2, ho, h1]⟩

/-- A successful `load_core` run implies each stage succeeded. -/
theorem load_core_stages {env : Env} {files : List String}
    {coords : List (ℚ × ℚ)} {tiles : List DEMTile}
    {final openedAll : List String}
    (hload : load_core env files coords = .ok (tiles, final, openedAll)) :
    ∃ q groups asters chosen opened,
      queryBox coords = some q ∧ scanFiles files = .ok (groups, asters) ∧
      processSwissGroups env q groups = .ok (chosen, opened) := by
  simp only [load_core] at hload
  split at hload
  · exact absurd hload (by simp)
  rename_i q hq
  split at hload
  · exact absurd hload (by simp)
  rename_i groups asters hscan
  split at hload
  · exact absurd hload (by simp)
  rename_i chosen opened hproc
  exact ⟨q, groups, asters, chosen, opened, hq, hscan, hproc⟩

/-! ## C2: finest-per-cell selection -/

/-- C2: in a successful batch load over a duplicate-free folder listing, the
candidate the selector takes from each fine-grid cell group is a group
member of minimal `resolution_meters` (the head of the stable resolution
sort), and every other (coarser) member of the group is never opened: its
path is not among the paths at which a `DEMTile` was constructed. -/
theorem C2_finest_per_group (env : Env) (files : List String)
    (coords : List (ℚ × ℚ)) (groups : List Group)
    (asters : List (AsterInfo × String)) (tiles : List DEMTile)
    (final openedAll : List String) (k : ℕ × ℕ)
    (entries : List (ℚ × String)) (e : ℚ × String) (es : List (ℚ × String))
    (hnodup : files.Nodup)
    (hscan : scanFiles files = .ok (groups, asters))
    (hload : load_core env files coords = .ok (tiles, final, openedAll))
    (hg : (k, entries) ∈ groups)
    (hs : sortByRes entries = e :: es) :
    (e ∈ entries ∧ ∀ a ∈ entries, e.1 ≤ a.1) ∧
      ∀ a ∈ es, a.2 ∉ openedAll := by
  refine ⟨⟨sortByRes_head_mem hs, sortByRes_head_min hs⟩, ?_⟩
  intro a ha hmem
  -- stage decomposition of the successful load
  obtain ⟨q, groups2, asters2, chosen, opened, hq, hscan2, hproc⟩ :=
    load_core_stages hload
  rw [hscan] at hscan2
  obtain ⟨hg2, ha2⟩ := Prod.mk.injEq .. ▸ (Except.ok.inj hscan2)
  subst hg2
  subst ha2
  obtain ⟨hf, hall, hopen⟩ := load_core_eq hq hscan hproc hload
  -- parse and uniqueness facts from the classification loop
  have hPg : groupsParse groups :=
    scan_groupsParse files [] [] groups asters hscan (by intro k e h; simp at h)
  have hPa : astersParse asters :=
    scan_astersParse files [] [] groups asters hscan (by intro pr h; simp at h)
  have hkeys : (keys groups).Nodup :=
    scan_keysNodup files [] [] groups asters hscan (by simp [keys])
  have hpaths : (gpaths groups ++ apaths asters).Nodup :=
    scan_pathsNodup files [] [] groups asters hscan
      (by simpa [gpaths, apaths] using hnodup)
  have hamem : a ∈ entries := sortByRes_tail_mem hs a ha
  have hpa : parseSwiss a.2 = .ok (some ⟨k.1, k.2, a.1⟩) :=
    hPg k entries hg a hamem
  -- a coarser duplicate's path is not among the opened group heads
  have hnotopened : a.2 ∉ opened := by
    intro hop
    obtain ⟨k2, en2, e2, es2, hm2, hs2, hp2⟩ := proc_opened_mem hproc a.2 hop
    have hpe2 : parseSwiss e2.2 = .ok (some ⟨k2.1, k2.2, e2.1⟩) :=
      hPg k2 en2 hm2 e2 (sortByRes_head_mem hs2)
    rw [← hp2] at hpe2
    rw [hpa] at hpe2
    simp only [Except.ok.injEq, Option.some.injEq, SwissInfo.mk.injEq] at hpe2
    obtain ⟨hk1, hk2, hres⟩ := hpe2
    have hkk : k2 = k := Prod.ext hk1.symm hk2.symm
    subst hkk
    have hen : en2 = entries := groups_key_unique hkeys hm2 hg
    rw [hen, hs] at hs2
    obtain ⟨he2, -⟩ := List.cons.injEq .. ▸ hs2
    -- now a ∈ es has the same path as the head e, contradicting nodup
    have hgnd : (gpaths groups).Nodup := hpaths.of_append_left
    have hend : (entries.map Prod.snd).Nodup :=
      hgnd.sublist (gpaths_group_sublist hg)
    have hsortnd : ((e :: es).map Prod.snd).Nodup := by
      have hperm := ((sortByRes_perm entries).map Prod.snd)
      rw [hs] at hperm
      exact hperm.symm.nodup hend
    simp only [List.map_cons, List.nodup_cons] at hsortnd
    exact hsortnd.1 (by
      rw [he2, ← hp2]
      exact List.mem_map.mpr ⟨a, ha, rfl⟩)
  rw [hall] at hmem
  rcases List.mem_append.mp hmem with hmem | hmem
  · exact hnotopened hmem
  · rw [hf] at hmem
    split at hmem
    · obtain ⟨pr2, hpr2, hpr2e⟩ := List.mem_map.mp hmem
      have := (hPa pr2 (List.mem_filter.mp hpr2).1).2
      rw [hpr2e, hpa] at this
      exact absurd this (by simp)
    · exact hnotopened (proc_chosen_sub hproc a.2 hmem)

/-! ## C3: the all-or-nothing coarse fallback -/

/-- C3: coarse (ASTER) candidates are consulted exactly when no fine-grid
tile was chosen: with no chosen fine path the final loaded paths are exactly
the overlapping coarse candidates (in particular so when there are no
fine-grid groups at all), and with at least one chosen fine path the final
paths are exactly the chosen fine paths and no coarse candidate's path is
ever loaded. -/
theorem C3_coarse_fallback_iff (env : Env) (files : List String)
    (coords : List (ℚ × ℚ)) (q : Box) (groups : List Group)
    (asters : List (AsterInfo × String)) (chosen opened : List String)
    (tiles : List DEMTile) (final openedAll : List String)
    (hq : queryBox coords = some q)
    (hscan : scanFiles files = .ok (groups, asters))
    (hproc : processSwissGroups env q groups = .ok (chosen, opened))
    (hload : load_core env files coords = .ok (tiles, final, openedAll)) :
    (groups = [] → chosen = []) ∧
      (chosen = [] →
        final = (asters.filter (fun ap => asterOverlaps ap.1 q)).map Prod.snd ∧
        openAll env
          ((asters.filter (fun ap => asterOverlaps ap.1 q)).map Prod.snd) =
          .ok tiles) ∧
      (chosen ≠ [] →
        final = chosen ∧ ∀ p ∈ final, ∀ pr ∈ asters, pr.2 ≠ p) := by
  obtain ⟨hf, hall, hopen⟩ := load_core_eq hq hscan hproc hload
  refine ⟨?_, ?_, ?_⟩
  · intro hg
    rw [hg] at hproc
    simp only [processSwissGroups, Except.ok.injEq, Prod.mk.injEq] at hproc
    exact hproc.1.symm
  · intro hc
    subst hc
    simp only [List.isEmpty_nil, if_true] at hf
    exact ⟨hf, by rw [← hf]; exact hopen⟩
  · intro hc
    have hne : chosen.isEmpty = false := by
      cases chosen with
      | nil => exact absurd rfl hc
      | cons x xs => rfl
    rw [hne] at hf
    simp only [Bool.false_eq_true, if_false] at hf
    refine ⟨hf, ?_⟩
    intro p hp pr hpr hep
    have hpc : p ∈ chosen := by rw [← hf]; exact hp
    have hpo : p ∈ opened := proc_chosen_sub hproc p hpc
    obtain ⟨k2, en2, e2, es2, hm2, hs2, hp2⟩ := proc_opened_mem hproc p hpo
    have hPg : groupsParse groups :=
      scan_groupsParse files [] [] groups asters hscan (by intro k e h; simp at h)
    have hPa : astersParse asters :=
      scan_astersParse files [] [] groups asters hscan (by intro x h; simp at h)
    have hswiss : parseSwiss p = .ok (some ⟨k2.1, k2.2, e2.1⟩) := by
      rw [hp2]
      exact hPg k2 en2 hm2 e2 (sortByRes_head_mem hs2)
    have hnone : parseSwiss pr.2 = .ok none := (hPa pr hpr).2
    rw [hep, hswiss] at hnone
    exact absurd hnone (by simp)

/-- Witness for C2 at the two-file cell: the finest (0.5 m) entry heads the
group, and the coarser duplicate's path is never opened during the load. -/
theorem C2_witness :
    (((1 : ℚ) / 2, n05) ∈ entriesW ∧ ∀ a ∈ entriesW, (1 : ℚ) / 2 ≤ a.1) ∧
      "grid_12-07_2_1_1.tif" ∉ [n05, n05] :=
  have h := C2_finest_per_group envSwiss [n05, n2] [(5, 5)]
    [((12, 7), entriesW)] [] [tileSwissW] [n05] [n05, n05] (12, 7) entriesW
    ((1 : ℚ) / 2, n05) [(2, n2)]
    (by decide) (by with_unfolding_all rfl) (by with_unfolding_all rfl)
    (by simp) (by with_unfolding_all rfl)
  ⟨h.1, h.2 (2, n2) (by simp)⟩

/-- Witness for C3: with no fine-grid tiles, the loaded paths are exactly
the overlapping coarse candidates, and opening them yields the tile list. -/
theorem C3_witness :
    [nAster] =
      (([(asterInfoW, nAster)].filter
        (fun ap => asterOverlaps ap.1 boxW)).map Prod.snd) ∧
      openAll envAster (([(asterInfoW, nAster)].filter
        (fun ap => asterOverlaps ap.1 boxW)).map Prod.snd) = .ok [tileAsterW] :=
  (C3_coarse_fallback_iff envAster [nAster] [(93 / 2, 17 / 2)] boxW []
    [(asterInfoW, nAster)] [] [] [tileAsterW] [nAster] [nAster]
    (by with_unfolding_all rfl) (by with_unfolding_all rfl)
    (by with_unfolding_all rfl) (by with_unfolding_all rfl)).2.1 rfl

/-! ## C6: classification of file names -/

theorem matchLit_append :
    ∀ {lit cs r : List Char}, matchLit lit cs = some r → cs = lit ++ r := by
  intro lit
  induction lit with
  | nil =>
    intro cs r h
    simp only [matchLit, Option.some.injEq] at h
    rw [h, List.nil_append]
  | cons l ls ih =>
    intro cs r h
    cases cs with
    | nil => simp [matchLit] at h
    | cons c cs2 =>
      simp only [matchLit] at h
      split at h
      · rename_i hc
        rw [hc, List.cons_append, ← ih h]
      · simp at h

theorem expectDigits_eq {cs d r : List Char}
    (h : expectDigits cs = some (d, r)) :
    cs = d ++ r ∧ d ≠ [] ∧ ∀ c ∈ d, c.isDigit = true := by
  simp only [expectDigits] at h
  split at h
  · simp at h
  · rename_i hne
    simp only [Option.some.injEq, Prod.mk.injEq] at h
    obtain ⟨rfl, rfl⟩ := h
    refine ⟨(List.takeWhile_append_dropWhile Char.isDigit cs).symm, ?_, ?_⟩
    · intro hx
      rw [hx] at hne
      simp at hne
    · intro c hc
      exact List.mem_takeWhile_imp hc

theorem expectResField_eq {cs d r : List Char}
    (h : expectResField cs = some (d, r)) : cs = d ++ r := by
  simp only [expectResField] at h
  split at h
  · simp at h
  · simp only [Option.some.injEq, Prod.mk.injEq] at h
    obtain ⟨rfl, rfl⟩ := h
    exact (List.takeWhile_append_dropWhile _ cs).symm

theorem expectChar_eq {c : Char} {cs r : List Char}
    (h : expectChar c cs = some r) : cs = c :: r := by
  cases cs with
  | nil => simp [expectChar] at h
  | cons x xs =>
    simp only [expectChar] at h
    split at h
    · rename_i hx
      simp only [Option.some.injEq] at h
      rw [hx, h]
    · simp at h

/-- A successful swisstopo tail match forces the input to end in a digit
followed by `.tif`. -/
theorem swissTail_suffix {cs : List Char}
    {r : List Char × List Char × List Char} (h : swissTail cs = some r) :
    ∃ a d, d.isDigit = true ∧ cs = a ++ d :: ['.', 't', 'i', 'f'] := by
  cases h1 : expectDigits cs with
  | none => simp only [swissTail, h1] at h; exact Option.noConfusion h
  | some p1 =>
  obtain ⟨d1, r1⟩ := p1
  cases h2 : expectChar '-' r1 with
  | none => simp only [swissTail, h1, h2] at h; exact Option.noConfusion h
  | some r2 =>
  cases h3 : expectDigits r2 with
  | none => simp only [swissTail, h1, h2, h3] at h; exact Option.noConfusion h
  | some p2 =>
  obtain ⟨d2, r3⟩ := p2
  cases h4 : expectChar '_' r3 with
  | none => simp only [swissTail, h1, h2, h3, h4] at h; exact Option.noConfusion h
  | some r4 =>
  cases h5 : expectResField r4 with
  | none => simp only [swissTail, h1, h2, h3, h4, h5] at h; exact Option.noConfusion h
  | some p3 =>
  obtain ⟨res, r5⟩ := p3
  cases h6 : expectChar '_' r5 with
  | none => simp only [swissTail, h1, h2, h3, h4, h5, h6] at h; exact Option.noConfusion h
  | some r6 =>
  cases h7 : expectDigits r6 with
  | none => simp only [swissTail, h1, h2, h3, h4, h5, h6, h7] at h; exact Option.noConfusion h
  | some p4 =>
  obtain ⟨d3, r7⟩ := p4
  cases h8 : expectChar '_' r7 with
  | none => simp only [swissTail, h1, h2, h3, h4, h5, h6, h7, h8] at h; exact Option.noConfusion h
  | some r8 =>
  cases h9 : expectDigits r8 with
  | none => simp only [swissTail, h1, h2, h3, h4, h5, h6, h7, h8, h9] at h; exact Option.noConfusion h
  | some p5 =>
  obtain ⟨d4, r9⟩ := p5
  simp only [swissTail, h1, h2, h3, h4, h5, h6, h7, h8, h9] at h
  split at h
  rotate_left
  · simp at h
  rename_i h10
  obtain ⟨e1, -, -⟩ := expectDigits_eq h1
  have e2 := expectChar_eq h2
  obtain ⟨e3, -, -⟩ := expectDigits_eq h3
  have e4 := expectChar_eq h4
  have e5 := expectResField_eq h5
  have e6 := expectChar_eq h6
  obtain ⟨e7, -, -⟩ := expectDigits_eq h7
  have e8 := expectChar_eq h8
  obtain ⟨e9, hne4, hdig4⟩ := expectDigits_eq h9
  obtain ⟨d, hdlast⟩ : ∃ x, d4.getLast hne4 = x := ⟨_, rfl⟩
  have hdd : d.isDigit = true := hdlast ▸ hdig4 _ (List.getLast_mem hne4)
  have e10 : d4 = d4.dropLast ++ [d] := by
    rw [← hdlast]
    exact (List.dropLast_append_getLast hne4).symm
  refine ⟨d1 ++ '-' :: (d2 ++ '_' :: (res ++ '_' :: (d3 ++ '_' :: d4.dropLast))),
    d, hdd, ?_⟩
  conv_lhs => rw [e1, e2, e3, e4, e5, e6, e7, e8, e9, h10, e10]
  simp [List.append_assoc]

/-- A successful swisstopo scan forces the name to end in a digit followed
by `.tif`. -/
theorem swissScan_suffix :
    ∀ {cs : List Char} {r : List Char × List Char × List Char},
      swissScan cs = some r →
      ∃ a d, d.isDigit = true ∧ cs = a ++ d :: ['.', 't', 'i', 'f'] := by
  intro cs
  induction cs with
  | nil => intro r h; simp [swissScan] at h
  | cons c cs2 ih =>
    intro r h
    simp only [swissScan] at h
    split at h
    · simp at h
    split at h
    · split at h
      · rename_i ht
        obtain ⟨a, d, hd, hcs⟩ := swissTail_suffix ht
        exact ⟨c :: a, d, hd, by simp [hcs]⟩
      · obtain ⟨a, d, hd, hcs⟩ := ih h
        exact ⟨c :: a, d, hd, by simp [hcs]⟩
    · obtain ⟨a, d, hd, hcs⟩ := ih h
      exact ⟨c :: a, d, hd, by simp [hcs]⟩

/-- A successful ASTER parse forces the name to end in `_dem.tif`. -/
theorem parseAster_suffix {name : String} {a : AsterInfo}
    (h : parseAster name = some a) :
    ∃ pre, name.toList =
      pre ++ ('_' :: 'd' :: 'e' :: 'm' :: '.' :: 't' :: 'i' :: 'f' :: []) := by
  cases h0 : matchLit "ASTGTMV".toList name.toList with
  | none => simp only [parseAster, h0] at h; exact Option.noConfusion h
  | some r1 =>
  cases h1 : expectDigits r1 with
  | none => simp only [parseAster, h0, h1] at h; exact Option.noConfusion h
  | some p1 =>
  obtain ⟨v, r2⟩ := p1
  cases h2 : expectChar '_' r2 with
  | none => simp only [parseAster, h0, h1, h2] at h; exact Option.noConfusion h
  | some r2b =>
  cases h3 : expectChar 'N' r2b with
  | none => simp only [parseAster, h0, h1, h2, h3] at h; exact Option.noConfusion h
  | some r3 =>
  cases h4 : expectDigits r3 with
  | none => simp only [parseAster, h0, h1, h2, h3, h4] at h; exact Option.noConfusion h
  | some p2 =>
  obtain ⟨d1, r4⟩ := p2
  cases h5 : expectChar 'E' r4 with
  | none => simp only [parseAster, h0, h1, h2, h3, h4, h5] at h; exact Option.noConfusion h
  | some r5 =>
  cases h6 : expectDigits r5 with
  | none => simp only [parseAster, h0, h1, h2, h3, h4, h5, h6] at h; exact Option.noConfusion h
  | some p3 =>
  obtain ⟨d2, r6⟩ := p3
  simp only [parseAster, h0, h1, h2, h3, h4, h5, h6] at h
  split at h
  rotate_left
  · simp at h
  rename_i h7
  obtain ⟨e1, -, -⟩ := expectDigits_eq h1
  have e2 := expectChar_eq h2
  have e3 := expectChar_eq h3
  obtain ⟨e4, -, -⟩ := expectDigits_eq h4
  have e5 := expectChar_eq h5
  obtain ⟨e6, -, -⟩ := expectDigits_eq h6
  refine ⟨"ASTGTMV".toList ++ (v ++ '_' :: 'N' :: (d1 ++ 'E' :: d2)), ?_⟩
  have e0 : name.toList = "ASTGTMV".toList ++ r1 := matchLit_append h0
  conv_lhs => rw [e0, e1, e2, e3, e4, e5, e6, h7]
  simp [List.append_assoc, String.toList]

/-- No file name matches both naming patterns: a swisstopo match and an
ASTER match cannot coexist. -/
theorem swiss_aster_disjoint (name : String) :
    swissScan name.toList = none ∨ parseAster name = none := by
  by_contra hcon
  push_neg at hcon
  obtain ⟨hs, ha⟩ := hcon
  obtain ⟨r, hr⟩ := Option.ne_none_iff_exists'.mp hs
  obtain ⟨a, ha2⟩ := Option.ne_none_iff_exists'.mp ha
  obtain ⟨p1, d, hd, h1⟩ := swissScan_suffix hr
  obtain ⟨p2, h2⟩ := parseAster_suffix ha2
  rw [h1] at h2
  have h3 : p2 ++ ('_' :: 'd' :: 'e' :: 'm' :: '.' :: 't' :: 'i' :: 'f' :: []) =
      (p2 ++ ['_', 'd', 'e']) ++ ('m' :: '.' :: 't' :: 'i' :: 'f' :: []) := by
    simp [List.append_assoc]
  rw [h3] at h2
  have h4 := List.append_inj_right' h2 (by rfl)
  have h5 : d = 'm' := by
    have := List.cons.injEq .. ▸ h4
    exact this.1
  rw [h5] at hd
  simp at hd

/-- Witness for C10 at a concrete manager and environment. -/
theorem C10_witness :
    DEMManager.load_tiles_for_coords envEmpty ⟨"d", []⟩ [] =
      .error .emptyMin :=
  (C10_empty_batch_errors envEmpty ⟨"d", []⟩).1

/-- C6 counterexample: the name `a_1-2_._3_4.tif` matches the fine-grid
pattern with resolution capture `"."`, on which Python's `float` raises; the
classification is a hard failure and it aborts the whole batch load. -/
theorem C6_counterexample :
    classify "a_1-2_._3_4.tif" = .error () ∧
      load_core envEmpty ["a_1-2_._3_4.tif"] [(0, 0)] = .error .floatError := by
  constructor
  · with_unfolding_all rfl
  · with_unfolding_all rfl

/-- C6 as amended: classification is total and single-family — no name
matches both patterns, a name matching neither is classified `unrecognized`
(not an error), a fine-grid match with a parseable resolution yields a
FineGrid descriptor and a coarse-grid match yields a CoarseGrid descriptor —
except that a fine-grid match whose resolution capture is not a valid
decimal (no digit, or more than one dot) raises an error that aborts the
batch load; classification fails exactly on those names. -/
theorem C6_classification_total (name : String) :
    (∀ d1 d2 res, swissScan name.toList = some (d1, d2, res) →
      parseAster name = none) ∧
    (swissScan name.toList = none → parseAster name = none →
      classify name = .ok .unrecognized) ∧
    (∀ d1 d2 res r, swissScan name.toList = some (d1, d2, res) →
      parseFloat res = some r →
      classify name = .ok (.fine ⟨digitsToNat d1, digitsToNat d2, r⟩)) ∧
    (∀ a, swissScan name.toList = none → parseAster name = some a →
      classify name = .ok (.coarse a)) ∧
    (classify name = .error () ↔
      ∃ d1 d2 res, swissScan name.toList = some (d1, d2, res) ∧
        parseFloat res = none) := by
  refine ⟨?_, ?_, ?_, ?_, ?_, ?_⟩
  · intro d1 d2 res hs
    rcases swiss_aster_disjoint name with h | h
    · rw [hs] at h; exact absurd h (by simp)
    · exact h
  · intro h1 h2
    simp only [String.toList] at h1
    simp [classify, parseSwiss, h1, h2]
  · intro d1 d2 res r hs hf
    simp only [String.toList] at hs
    simp [classify, parseSwiss, hs, hf]
  · intro a h1 h2
    simp only [String.toList] at h1
    simp [classify, parseSwiss, h1, h2]
  · intro h
    have hTL : name.toList = name.data := rfl
    cases hs : swissScan name.data with
    | none =>
      cases hp : parseAster name with
      | some a => simp [classify, parseSwiss, hs, hp] at h
      | none => simp [classify, parseSwiss, hs, hp] at h
    | some t =>
      obtain ⟨d1, d2, res⟩ := t
      cases hf : parseFloat res with
      | none => exact ⟨d1, d2, res, by rw [hTL]; exact hs, hf⟩
      | some v => simp [classify, parseSwiss, hs, hf] at h
  · rintro ⟨d1, d2, res, hs, hf⟩
    simp only [String.toList] at hs
    simp [classify, parseSwiss, hs, hf]

/-- Witness for C6 (amended) at a name matching neither pattern. -/
theorem C6_witness : classify "foo.txt" = .ok .unrecognized :=
  (C6_classification_total "foo.txt").2.1 (by rfl) (by rfl)

end DEM
